import Mathlib

/-!
# Gossip cache node: controller, event loop and discovery

A shallow embedding of `controller.go`, `cluster.go` and the cache callbacks of
`main.go`, with the part of `encoding/gob` the controller relies on.

Conventions.
* A Go `[]byte` is `GoBytes = Option (List Nat)`: `none` is the nil slice and
  `some []` the empty, non-nil slice. A Go `string` is the list of its bytes.
* Bytes are natural numbers below 256.
* Callbacks that touch the outside world are state transformers over a world
  type `σ`.
* A Go panic or a library error is an `Except.error`.
-/

namespace GossipCache

/-! ## Bytes and strings -/

/-- A Go string: its bytes, each a natural number below 256. -/
abbrev GoString := List Nat

/-- A Go byte slice; `none` is nil. -/
abbrev GoBytes := Option (List Nat)

/-- The bytes of an ASCII literal. -/
def ascii (s : String) : GoString := s.toList.map Char.toNat

/-- The conversion `string(b)`, also what `bytes.NewReader(b)` reads: nil and empty agree. -/
def bytesOf (b : GoBytes) : List Nat := b.getD []

/-- Equality of results is decidable. -/
instance instDecidableEqExcept {ε α : Type} [DecidableEq ε] [DecidableEq α] :
    DecidableEq (Except ε α)
  | .ok a, .ok b => if h : a = b then isTrue (h ▸ rfl) else isFalse (fun h1 => h (Except.ok.inj h1))
  | .error a, .error b =>
    if h : a = b then isTrue (h ▸ rfl) else isFalse (fun h1 => h (Except.error.inj h1))
  | .ok _, .error _ => isFalse (fun h => Except.noConfusion h)
  | .error _, .ok _ => isFalse (fun h => Except.noConfusion h)

/-! ## encoding/gob: the encoder -/

/-- The constant `tooBig` of encoding/gob, `(1 << 30) << (^uint(0) >> 62)`, on a 64-bit build:
`(1 << 30) << 3`. -/
def tooBig : Nat := 2 ^ 33

/-- The constant `firstUserId`, the lowest type id granted to a user type. -/
def firstUserId : Int := 64

/-- The id of the built-in wire type `[]byte`. -/
def tBytes : Int := 5

/-- The function `binary.BigEndian.PutUint64`: the eight bytes of a 64-bit word. -/
def putUint64 (x : Nat) : List Nat :=
  [x / 2 ^ 56 % 256, x / 2 ^ 48 % 256, x / 2 ^ 40 % 256, x / 2 ^ 32 % 256,
   x / 2 ^ 24 % 256, x / 2 ^ 16 % 256, x / 2 ^ 8 % 256, x % 256]

/-- The number of leading zero bytes of a big-endian word, `bits.LeadingZeros64(x) >> 3`. -/
def leadingZeroBytes : List Nat → Nat
  | 0 :: bs => leadingZeroBytes bs + 1
  | _ => 0

/-- The method `encoderState.encodeUint` on a 64-bit word: one byte up to 0x7F, otherwise the
negated byte count followed by the significant bytes, high byte first. -/
def encodeUint (x : Nat) : List Nat :=
  if x ≤ 0x7F then [x]
  else
    let buf := putUint64 x
    let bc := leadingZeroBytes buf
    (bc + 256 - 8) :: buf.drop bc

/-- The method `encoderState.encodeInt`: the sign goes to bit 0, a negative value is complemented. -/
def encodeInt (i : Int) : List Nat :=
  encodeUint ((if i < 0 then 2 * (-(i + 1)).toNat + 1 else 2 * i.toNat) % 2 ^ 64)

/-- A length-prefixed string or byte slice. -/
def encodeBytes (s : List Nat) : List Nat := encodeUint s.length ++ s

/-- The fields of a struct value: a field holding its zero value (`none` here) is left out, every
other field is preceded by the distance from the previous field sent, and a zero ends the struct. -/
def encodeFields : List (Option (List Nat)) → Nat → List Nat
  | [], _ => [0]
  | none :: fs, delta => encodeFields fs (delta + 1)
  | some e :: fs, delta => encodeUint delta ++ e ++ encodeFields fs 1

/-- The gob type `fieldType`. -/
structure fieldType where
  Name : GoString
  Id : Int
deriving DecidableEq, Repr

/-- The gob type `structType`, its embedded `CommonType` flattened. -/
structure structType where
  Name : GoString
  Id : Int
  Field : List fieldType
deriving DecidableEq, Repr

/-- A string field; the empty string is a zero value and is not sent. -/
def encodeString? (s : GoString) : Option (List Nat) :=
  if s = [] then none else some (encodeBytes s)

/-- An integer field; zero is not sent. -/
def encodeInt? (i : Int) : Option (List Nat) :=
  if i = 0 then none else some (encodeInt i)

/-- The encoding of a `fieldType` value. -/
def encodeFieldType (f : fieldType) : List Nat :=
  encodeFields [encodeString? f.Name, encodeInt? f.Id] 1

/-- The encoding of the embedded `CommonType`. -/
def encodeCommonType (name : GoString) (id : Int) : List Nat :=
  encodeFields [encodeString? name, encodeInt? id] 1

/-- The slice `Field`: its length, then its elements; an empty slice is not sent. -/
def encodeFieldSlice? (fs : List fieldType) : Option (List Nat) :=
  if fs = [] then none else some (encodeUint fs.length ++ (fs.map encodeFieldType).flatten)

/-- The encoding of a `structType` value: the embedded struct is always sent. -/
def encodeStructType (t : structType) : List Nat :=
  encodeFields [some (encodeCommonType t.Name t.Id), encodeFieldSlice? t.Field] 1

/-- A `wireType` describing a struct: `ArrayT` and `SliceT` are nil, `StructT` is the third field. -/
def encodeWireType (t : structType) : List Nat :=
  encodeFields [none, none, some (encodeStructType t)] 1

/-- The method `Encoder.writeMessage`: the byte count, then the message; a message of `tooBig`
bytes or more is refused. -/
def writeMessage (message : List Nat) : Except String (List Nat) :=
  if message.length ≥ tooBig then .error "gob: encoder: message too big"
  else .ok (encodeUint message.length ++ message)

/-- The value part of a struct with the single field `field []byte`: an empty slice is a zero
value and is not sent. -/
def encodeOneField (field : GoBytes) : List Nat :=
  encodeFields [if (bytesOf field).length > 0 then some (encodeBytes (bytesOf field)) else none] 1

/-- The call `gob.NewEncoder(&buf).Encode(v)` for a struct `typeName` with the one exported field
`fieldName []byte`, whose type id in the encoding process is `id`: a fresh encoder first sends
the type descriptor under `-id`, then the value under `id`. -/
def gobEncode (typeName fieldName : GoString) (id : Int) (field : GoBytes) :
    Except String (List Nat) :=
  match writeMessage (encodeInt (-id) ++
      encodeWireType { Name := typeName, Id := id, Field := [{ Name := fieldName, Id := tBytes }] }) with
  | .error e => .error e
  | .ok descriptor =>
    match writeMessage (encodeInt id ++ encodeOneField field) with
    | .error e => .error e
    | .ok value => .ok (descriptor ++ value)

/-! ## encoding/gob: the decoder

The decoder follows `Decoder.Decode` for a target struct with one exported `[]byte` field. It
covers streams of struct type descriptors followed by a value. Descriptors of other kinds
(array, slice, map, marshaler), wire fields of a non-basic type that would have to be skipped,
and values of one of gob's built-in descriptor types are outside the model and are reported as
decode errors. -/

/-- The method `decoderState.decodeUint`. -/
def decodeUint : List Nat → Except String (Nat × List Nat)
  | [] => .error "EOF"
  | b :: buf =>
    if b ≤ 0x7F then .ok (b, buf)
    else
      let n := 256 - b
      if n > 8 then .error "gob: encoded unsigned integer out of range"
      else if buf.length < n then .error "invalid uint data length"
      else .ok ((buf.take n).foldl (fun x c => x * 256 + c) 0, buf.drop n)

/-- The method `decoderState.decodeInt`. -/
def decodeInt (buf : List Nat) : Except String (Int × List Nat) :=
  match decodeUint buf with
  | .error e => .error e
  | .ok (x, rest) => .ok (if x % 2 = 1 then -((x / 2 : Nat) : Int) - 1 else ((x / 2 : Nat) : Int), rest)

/-- A 32-bit integer field (`decInt32`, used for type ids): a value out of range is an error. -/
def decodeInt32 (buf : List Nat) : Except String (Int × List Nat) :=
  match decodeInt buf with
  | .error e => .error e
  | .ok (v, rest) =>
    if v < -(2 ^ 31) ∨ 2 ^ 31 - 1 < v then .error "value out of range" else .ok (v, rest)

/-- A length followed by that many bytes (`getLength` and the copy in `decUint8Slice`, `decString`
and `ignoreUint8Array`). -/
def decodeBytes (buf : List Nat) : Except String (List Nat × List Nat) :=
  match decodeUint buf with
  | .error e => .error e
  | .ok (n, rest) =>
    if rest.length < n ∨ tooBig ≤ n then .error "bad slice length"
    else .ok (rest.take n, rest.drop n)

/-- The method `Decoder.decodeStruct`: field deltas are read until the zero terminator or the end
of the buffer; `op fieldnum` decodes the field into the accumulator. Every round consumes a
byte, so a fuel above the buffer length is never used up. -/
def decodeStruct {α : Type} (numInstr : Nat)
    (op : Nat → α → List Nat → Except String (α × List Nat)) :
    Nat → Int → α → List Nat → Except String (α × List Nat)
  | 0, _, _, _ => .error "out of fuel"
  | fuel + 1, fieldnum, a, buf =>
    if buf = [] then .ok (a, buf)
    else
      match decodeUint buf with
      | .error e => .error e
      | .ok (delta, rest) =>
        if 2 ^ 63 ≤ delta then .error "decode: corrupted data: negative delta"
        else if delta = 0 then .ok (a, rest)
        else if fieldnum ≥ (numInstr : Int) - (delta : Int) then .error "field numbers out of bounds"
        else
          match op (fieldnum + delta).toNat a rest with
          | .error e => .error e
          | .ok (a1, rest1) => decodeStruct numInstr op fuel (fieldnum + delta) a1 rest1

/-- The decoding of one `fieldType`. -/
def decodeFieldType (buf : List Nat) : Except String (fieldType × List Nat) :=
  decodeStruct 2
    (fun fieldnum f b =>
      if fieldnum = 0 then
        match decodeBytes b with
        | .error e => .error e
        | .ok (name, rest) => .ok ({ f with Name := name }, rest)
      else
        match decodeInt32 b with
        | .error e => .error e
        | .ok (id, rest) => .ok ({ f with Id := id }, rest))
    (buf.length + 1) (-1) { Name := [], Id := 0 } buf

/-- The elements of a `[]fieldType` (`decodeArrayHelper`): `n` structs, none of which may start at
the end of the buffer. -/
def decodeFieldTypes : Nat → List Nat → Except String (List fieldType × List Nat)
  | 0, buf => .ok ([], buf)
  | n + 1, buf =>
    if buf = [] then .error "decoding array or slice: length exceeds input size"
    else
      match decodeFieldType buf with
      | .error e => .error e
      | .ok (f, rest) =>
        match decodeFieldTypes n rest with
        | .error e => .error e
        | .ok (fs, rest1) => .ok (f :: fs, rest1)

/-- The method `Decoder.decodeSlice` for `[]fieldType`, whose elements take 24 bytes in memory. -/
def decodeFieldSlice (buf : List Nat) : Except String (List fieldType × List Nat) :=
  match decodeUint buf with
  | .error e => .error e
  | .ok (u, rest) =>
    if 2 ^ 63 ≤ u ∨ u * 24 > tooBig then .error "slice too big"
    else decodeFieldTypes u rest

/-- The decoding of a `structType`: the embedded `CommonType` is field 0, `Field` is field 1. -/
def decodeStructType (buf : List Nat) : Except String (structType × List Nat) :=
  decodeStruct 2
    (fun fieldnum t b =>
      if fieldnum = 0 then
        decodeStruct 2
          (fun fieldnum1 t1 b1 =>
            if fieldnum1 = 0 then
              match decodeBytes b1 with
              | .error e => .error e
              | .ok (name, rest) => .ok ({ t1 with Name := name }, rest)
            else
              match decodeInt32 b1 with
              | .error e => .error e
              | .ok (id, rest) => .ok ({ t1 with Id := id }, rest))
          (b.length + 1) (-1) t b
      else
        match decodeFieldSlice b with
        | .error e => .error e
        | .ok (fs, rest) => .ok ({ t with Field := fs }, rest))
    (buf.length + 1) (-1) { Name := [], Id := 0, Field := [] } buf

/-- The decoding of a `wireType`, which has seven pointer fields; `StructT` is field 2. -/
def decodeWireType (buf : List Nat) : Except String (Option structType × List Nat) :=
  decodeStruct 7
    (fun fieldnum _ b =>
      if fieldnum = 2 then
        match decodeStructType b with
        | .error e => .error e
        | .ok (t, rest) => .ok (some t, rest)
      else .error "type descriptor outside the model")
    (buf.length + 1) (-1) none buf

/-- What the decoding engine does with a field of the wire struct. -/
inductive decInstr where
  | store
  | ignore (id : Int)
deriving DecidableEq, Repr

/-- The loop of `Decoder.compileDec` over the fields of the wire struct, for a local struct whose
one field is `fieldName []byte`: a field of that name must have the wire type `[]byte`, any other
field is skipped. -/
def compileFields (fieldName : GoString) : List fieldType → Except String (List decInstr)
  | [] => .ok []
  | f :: fs =>
    if f.Name = [] then .error "empty name for remote field"
    else if f.Name ≠ fieldName then
      if 1 ≤ f.Id ∧ f.Id ≤ 7 then
        match compileFields fieldName fs with
        | .error e => .error e
        | .ok is => .ok (decInstr.ignore f.Id :: is)
      else .error "skipped field of a type outside the model"
    else if f.Id ≠ tBytes then .error "wrong type for received field"
    else
      match compileFields fieldName fs with
      | .error e => .error e
      | .ok is => .ok (decInstr.store :: is)

/-- The skipping of a basic value (`ignoreUint`, `ignoreUint8Array`, `ignoreTwoUints`). -/
def ignoreValue (id : Int) (buf : List Nat) : Except String (List Nat) :=
  if id = 5 ∨ id = 6 then
    match decodeBytes buf with
    | .error e => .error e
    | .ok (_, rest) => .ok rest
  else if id = 7 then
    match decodeUint buf with
    | .error e => .error e
    | .ok (_, rest) =>
      match decodeUint rest with
      | .error e => .error e
      | .ok (_, rest1) => .ok rest1
  else
    match decodeUint buf with
    | .error e => .error e
    | .ok (_, rest) => .ok rest

/-- The function `decUint8Slice`: a zero length leaves a nil slice nil. -/
def decUint8Slice (cur : GoBytes) (buf : List Nat) : Except String (GoBytes × List Nat) :=
  match decodeBytes buf with
  | .error e => .error e
  | .ok (data, rest) =>
    if data.length = 0 ∧ cur = none then .ok (none, rest) else .ok (some data, rest)

/-- The method `Decoder.decodeValue` into a zero struct whose one field is `fieldName []byte`: the
engine is compiled from the descriptor received under `id`, a descriptor with fields none of
which matches is a type mismatch, and the struct is decoded field by field. -/
def decodeValue (fieldName : GoString) (types : List (Int × Option structType)) (id : Int)
    (buf : List Nat) : Except String GoBytes :=
  match types.lookup id with
  | none => .error "gob: bad data: undefined type"
  | some none => .error "type mismatch in decoder: want struct type"
  | some (some wire) =>
    match compileFields fieldName wire.Field with
    | .error e => .error e
    | .ok instrs =>
      if instrs.count decInstr.store = 0 ∧ wire.Field.length > 0 then
        .error "type mismatch: no fields matched compiling decoder"
      else
        match decodeStruct instrs.length
            (fun fieldnum cur b =>
              match instrs.get? fieldnum with
              | some decInstr.store => decUint8Slice cur b
              | some (decInstr.ignore tid) =>
                match ignoreValue tid b with
                | .error e => .error e
                | .ok rest => .ok (cur, rest)
              | none => .error "field numbers out of bounds")
            (buf.length + 1) (-1) none buf with
        | .error e => .error e
        | .ok (field, _) => .ok field

/-- The method `Decoder.recvMessage`: a byte count below `tooBig`, then that many bytes. -/
def recvMessage (r : List Nat) : Except String (List Nat × List Nat) :=
  match decodeUint r with
  | .error e => .error e
  | .ok (nbytes, rest) =>
    if tooBig ≤ nbytes then .error "invalid message length"
    else if rest.length < nbytes then .error "unexpected EOF"
    else .ok (rest.take nbytes, rest.drop nbytes)

/-- The conversion of an `int64` to the 32-bit `typeId`, also the wrap of a negated `typeId`. -/
def toTypeId (i : Int) : Int :=
  if i % 2 ^ 32 < 2 ^ 31 then i % 2 ^ 32 else i % 2 ^ 32 - 2 ^ 32

/-- The methods `Decoder.decodeTypeSequence` and `recvType`, then `decodeValue`: descriptors are
recorded under their id until a message with a non-negative id brings the value. Every message
consumes a byte of the reader, so a fuel above its length is never used up. -/
def decodeMessages (fieldName : GoString) :
    Nat → List (Int × Option structType) → List Nat → Except String GoBytes
  | 0, _, _ => .error "out of fuel"
  | fuel + 1, types, r =>
    match recvMessage r with
    | .error e => .error e
    | .ok (buf, r1) =>
      match decodeInt buf with
      | .error e => .error e
      | .ok (i, buf1) =>
        if 0 ≤ toTypeId i then decodeValue fieldName types (toTypeId i) buf1
        else if toTypeId (-toTypeId i) < firstUserId ∨
            (types.lookup (toTypeId (-toTypeId i))).isSome then
          .error "gob: duplicate type received"
        else
          match decodeWireType buf1 with
          | .error e => .error e
          | .ok (wire, rest) =>
            if rest ≠ [] then .error "extra data in buffer"
            else decodeMessages fieldName fuel ((toTypeId (-toTypeId i), wire) :: types) r1

/-- The call `gob.NewDecoder(bytes.NewReader(payload)).Decode(&v)` for a zero struct `v` whose
one field is `fieldName []byte`; the result is the field. -/
def gobDecode (fieldName : GoString) (payload : List Nat) : Except String GoBytes :=
  decodeMessages fieldName (payload.length + 1) [] payload

/-! ## controller.go -/

def getCommand : GoString := ascii "get"

def purgeCommand : GoString := ascii "purge"

structure getRequest where
  Key : GoBytes
deriving DecidableEq, Repr

structure getResponse where
  Value : GoBytes
deriving DecidableEq, Repr

structure purgeRequest where
  Key : GoBytes
deriving DecidableEq, Repr

/-- The encoder and decoder calls of the controller, one pair for each payload type. -/
structure Codec where
  encodeGetRequest : getRequest → Except String (List Nat)
  decodeGetRequest : List Nat → Except String getRequest
  encodeGetResponse : getResponse → Except String (List Nat)
  decodeGetResponse : List Nat → Except String getResponse
  encodePurgeRequest : purgeRequest → Except String (List Nat)
  decodePurgeRequest : List Nat → Except String purgeRequest

/-- The place of each payload type among the user types of the encoding process: encoding/gob
(Go 1.22, which the program needs) numbers user types from `firstUserId` = 64 in the order of
their first use, and the program has these three. -/
structure GobIds where
  getRequest : Fin 3
  getResponse : Fin 3
  purgeRequest : Fin 3
deriving DecidableEq, Repr

/-- The type id of the user type in place `n`. -/
def typeId (n : Fin 3) : Int := firstUserId + (n.val : Int)

/-- The codec the controller uses: encoding/gob, in a process with the type ids `ids`. -/
def gob (ids : GobIds) : Codec where
  encodeGetRequest v := gobEncode (ascii "getRequest") (ascii "Key") (typeId ids.getRequest) v.Key
  decodeGetRequest payload :=
    match gobDecode (ascii "Key") payload with
    | .error e => .error e
    | .ok field => .ok { Key := field }
  encodeGetResponse v :=
    gobEncode (ascii "getResponse") (ascii "Value") (typeId ids.getResponse) v.Value
  decodeGetResponse payload :=
    match gobDecode (ascii "Value") payload with
    | .error e => .error e
    | .ok field => .ok { Value := field }
  encodePurgeRequest v :=
    gobEncode (ascii "purgeRequest") (ascii "Key") (typeId ids.purgeRequest) v.Key
  decodePurgeRequest payload :=
    match gobDecode (ascii "Key") payload with
    | .error e => .error e
    | .ok field => .ok { Key := field }

/-- The struct `controller`: its four callbacks, as transformers of the world they act on. -/
structure controller (σ : Type) where
  onGet : GoBytes → σ → GoBytes × σ
  onPurge : GoBytes → σ → σ
  sendQuery : GoString → GoBytes → σ → GoBytes × σ
  sendUserEvent : GoString → GoBytes → σ → σ

/-- The method `bytes.Buffer.Bytes`: nil for a buffer nothing was written to. -/
def bufferBytes (written : List Nat) : GoBytes :=
  if written = [] then none else some written

/-- The method `controller.handleQuery`. -/
def handleQuery {σ : Type} (g : Codec) (c : controller σ) (_name : GoString) (payload : GoBytes)
    (s : σ) : GoBytes × σ :=
  match g.decodeGetRequest (bytesOf payload) with
  | .error _ => (none, s)
  | .ok req =>
    match c.onGet req.Key s with
    | (some value, s1) =>
      match g.encodeGetResponse { Value := some value } with
      | .error _ => (none, s1)
      | .ok buf => (bufferBytes buf, s1)
    | (none, s1) => (none, s1)

/-- The method `controller.handleUserEvent`. -/
def handleUserEvent {σ : Type} (g : Codec) (c : controller σ) (_name : GoString)
    (payload : GoBytes) (s : σ) : σ :=
  match g.decodePurgeRequest (bytesOf payload) with
  | .error _ => s
  | .ok req => c.onPurge req.Key s

/-- The method `controller.get`. -/
def get {σ : Type} (g : Codec) (c : controller σ) (key : GoBytes) (s : σ) : GoBytes × σ :=
  match g.encodeGetRequest { Key := key } with
  | .error _ => (none, s)
  | .ok buf =>
    match c.sendQuery getCommand (bufferBytes buf) s with
    | (some nodeRes, s1) =>
      match g.decodeGetResponse nodeRes with
      | .error _ => (none, s1)
      | .ok res => (res.Value, s1)
    | (none, s1) => (none, s1)

/-- The method `controller.purge`. -/
def purge {σ : Type} (g : Codec) (c : controller σ) (key : GoBytes) (s : σ) : σ :=
  match g.encodePurgeRequest { Key := key } with
  | .error _ => s
  | .ok buf => c.sendUserEvent purgeCommand (bufferBytes buf) s

/-! ## cluster.go -/

/-- The function `strings.Index` for a separator of one byte; `none` stands for -1. -/
def Index : GoString → Nat → Option Nat
  | [], _ => none
  | b :: rest, sep => if b = sep then some 0 else (Index rest sep).map (· + 1)

/-- The loop of `strings.genSplit`: at most `n` cuts, the remainder is the last part. -/
def splitLoop (sep : Nat) : Nat → GoString → List GoString
  | 0, s => [s]
  | n + 1, s =>
    match Index s sep with
    | none => [s]
    | some m => s.take m :: splitLoop sep n (s.drop (m + 1))

/-- The function `strings.SplitN` for a separator of one byte: at most `n` parts, and never more
parts than the string has bytes plus one. -/
def SplitN (s : GoString) (sep : Nat) (n : Nat) : List GoString :=
  if n = 0 then [] else splitLoop sep (min n (s.length + 1) - 1) s

/-- The separator `:`. -/
def colon : Nat := 58

/-- The struct `serf.NodeResponse`. -/
structure NodeResponse where
  From : GoString
  Payload : GoBytes
deriving DecidableEq, Repr

/-- The struct `serf.UserEvent`, its name and payload. -/
structure UserEvent where
  Name : GoString
  Payload : GoBytes
deriving DecidableEq, Repr

/-- What the events channel delivers: a query with its source node, a user event, or a
membership event, for which the switch has no case. -/
inductive Event where
  | query (SourceNode : GoString) (Name : GoString) (Payload : GoBytes)
  | user (userEvent : UserEvent)
  | member
deriving DecidableEq, Repr

/-- The state of the event loop: the world of the callbacks and the payloads handed to
`query.Respond` so far. -/
structure Loop (σ : Type) where
  world : σ
  responded : List (List Nat)

/-- One round of the event loop of `connect` on a received event, for the local member name
`localName`. Reading `parts[1]` of a one-element slice is a run-time panic. -/
def connect.dispatch {σ : Type} (g : Codec) (localName : GoString) (ctrl : controller σ)
    (event : Event) (l : Loop σ) : Except String (Loop σ) :=
  match event with
  | .query sourceNode name payload =>
    if sourceNode = localName then .ok l
    else
      match handleQuery g ctrl name payload l.world with
      | (some res, w) => .ok { world := w, responded := l.responded ++ [res] }
      | (none, w) => .ok { world := w, responded := l.responded }
  | .user userEvent =>
    match SplitN userEvent.Name colon 2 with
    | [] => .error "index out of range [0] with length 0"
    | part0 :: rest =>
      if part0 = localName then .ok l
      else
        match rest with
        | [] => .error "index out of range [1] with length 1"
        | part1 :: _ =>
          .ok { world := handleUserEvent g ctrl part1 userEvent.Payload l.world,
                responded := l.responded }
  | .member => .ok l

/-- The event loop on the events received before the stop signal; a panic ends it. -/
def connect.eventLoop {σ : Type} (g : Codec) (localName : GoString) (ctrl : controller σ) :
    List Event → Loop σ → Except String (Loop σ)
  | [], l => .ok l
  | event :: events, l =>
    match connect.dispatch g localName ctrl event l with
    | .error e => .error e
    | .ok l1 => connect.eventLoop g localName ctrl events l1

/-- The closure `ctrl.sendQuery` of `connect`, on the outcome of `cluster.Query`: an error, or
the responses the range loop receives from the response channel until it is closed and empty.
The loop body stores the payload and closes the query, and the loop goes on. -/
def connect.sendQuery (queryRes : Except String (List NodeResponse)) : GoBytes :=
  match queryRes with
  | .error _ => none
  | .ok responses => responses.foldl (fun _ res => res.Payload) none

/-- The closure `ctrl.sendUserEvent` of `connect`: the event handed to `cluster.UserEvent`. -/
def connect.sendUserEvent (localName : GoString) (command : GoString) (payload : GoBytes) :
    UserEvent :=
  { Name := localName ++ [colon] ++ command, Payload := payload }

/-- The struct `mdns.ServiceEntry`, the two fields `discoverOthers` reads. -/
structure ServiceEntry where
  AddrV4 : List Nat
  Port : Int
deriving DecidableEq, Repr

/-- The decimal form of an integer. -/
def decimal (i : Int) : GoString := ascii (toString i)

/-- The lower-case hexadecimal form of a number, without leading zeros. -/
def hex (n : Nat) : GoString := (Nat.toDigits 16 n).map Char.toNat

/-- The four parts of an IPv4 address, dotted. -/
def string4 (ip : List Nat) : GoString :=
  decimal (ip.getD 0 0) ++ [46] ++ decimal (ip.getD 1 0) ++ [46] ++ decimal (ip.getD 2 0) ++
    [46] ++ decimal (ip.getD 3 0)

/-- The eight 16-bit groups of a 16-byte address. -/
def groups (ip : List Nat) : List Nat :=
  (List.range 8).map (fun i => ip.getD (2 * i) 0 * 256 + ip.getD (2 * i + 1) 0)

/-- The search of `netip.Addr.string6` for the first longest run of two or more zero groups;
`(255, 255)` when there is none. -/
def zeroRun (gs : List Nat) : Nat × Nat :=
  (List.range 8).foldl
    (fun best i =>
      let l := ((gs.drop i).takeWhile (· = 0)).length
      if l ≥ 2 ∧ l > best.2 - best.1 then (i, i + l) else best)
    (255, 255)

/-- The output loop of `netip.Addr.string6` from group `i` on. -/
def string6Loop (gs : List Nat) (zeroStart zeroEnd : Nat) : Nat → Nat → GoString
  | 0, _ => []
  | fuel + 1, i =>
    if i ≥ 8 then []
    else if i = zeroStart then
      if zeroEnd ≥ 8 then [colon, colon]
      else [colon, colon] ++ hex (gs.getD zeroEnd 0) ++ string6Loop gs zeroStart zeroEnd fuel (zeroEnd + 1)
    else (if i > 0 then [colon] else []) ++ hex (gs.getD i 0) ++
      string6Loop gs zeroStart zeroEnd fuel (i + 1)

/-- The method `net.IP.String`, which the verb `%s` calls. -/
def ipString (ip : List Nat) : GoString :=
  if ip.length = 0 then ascii "<nil>"
  else if ip.length = 4 then string4 ip
  else if ip.length = 16 then
    if ip.take 10 = List.replicate 10 0 ∧ (ip.drop 10).take 2 = [255, 255] then string4 (ip.drop 12)
    else string6Loop (groups ip) (zeroRun (groups ip)).1 (zeroRun (groups ip)).2 9 0
  else ascii "?" ++ (ip.map (fun b => hex (b / 16) ++ hex (b % 16))).flatten

/-- The call `fmt.Sprintf("%s:%d", entry.AddrV4, entry.Port)`. -/
def hostPort (entry : ServiceEntry) : GoString :=
  ipString entry.AddrV4 ++ [colon] ++ decimal entry.Port

/-- The function `discoverOthers`, on the outcome of `mdns.Query`: the entries it delivered on the
channel and its error. An error ends the process (`none`); otherwise the collecting goroutine has
appended one string for every entry, in order. -/
def discoverOthers (entries : List ServiceEntry) (err : Option String) : Option (List GoString) :=
  match err with
  | some _ => none
  | none => some (entries.foldl (fun peers entry => peers ++ [hostPort entry]) [])

/-! ## main.go -/

/-- The global `cache`, a map from string to byte slice: `none` where the key has no entry. -/
abbrev Cache := GoString → Option GoBytes

/-- The statement `cache[key] = value`. -/
def Cache.store (cache : Cache) (key : GoString) (value : GoBytes) : Cache :=
  fun k => if k = key then some value else cache k

/-- The statement `delete(cache, key)`. -/
def Cache.delete (cache : Cache) (key : GoString) : Cache :=
  fun k => if k = key then none else cache k

/-- The expression `cache[key]`: nil where the key has no entry. -/
def Cache.index (cache : Cache) (key : GoString) : GoBytes := (cache key).getD none

/-- The world of a running node: its cache and the user events it handed to `cluster.UserEvent`. -/
structure Node where
  cache : Cache
  sent : List UserEvent

/-- What `connect` uses of the serf handle: the name of the local member, and for each query the
outcome of `cluster.Query`. -/
structure Serf where
  LocalMember : GoString
  Query : GoString → GoBytes → Except String (List NodeResponse)

/-- The controller of `main`, with the closures `connect` installs. -/
def main.ctrl (cluster : Serf) : controller Node where
  onGet key n := (n.cache.index (bytesOf key), n)
  onPurge key n := { n with cache := n.cache.delete (bytesOf key) }
  sendQuery name payload n := (connect.sendQuery (cluster.Query name payload), n)
  sendUserEvent command payload n :=
    { n with sent := n.sent ++ [connect.sendUserEvent cluster.LocalMember command payload] }

/-- The handler of `POST /key` on a request body that was read: store, then broadcast. -/
def main.postHandler (g : Codec) (cluster : Serf) (key : GoString) (body : List Nat) (n : Node) : Node :=
  purge g (main.ctrl cluster) (some key) { n with cache := n.cache.store key (some body) }

/-- The answers of the handler of `GET /key`. -/
inductive Reply where
  | fromLocal (body : GoBytes)
  | fromCluster (body : GoBytes)
  | notFound
deriving DecidableEq, Repr

/-- The handler of `GET /key`: the local entry, else the cluster, else 404. -/
def main.getHandler (g : Codec) (cluster : Serf) (key : GoString) (n : Node) : Reply × Node :=
  match n.cache key with
  | some value => (.fromLocal value, n)
  | none =>
    match get g (main.ctrl cluster) (some key) n with
    | (some res, n1) => (.fromCluster (some res), n1)
    | (none, n1) => (.notFound, n1)

/-! ## Fixed inputs used in the evaluations below -/

/-- A process that first used `getRequest`, then `getResponse`, then `purgeRequest`. -/
def GobIds.inOrder : GobIds := { getRequest := 0, getResponse := 1, purgeRequest := 2 }

/-- A process that first used `purgeRequest`, then `getResponse`, then `getRequest`. -/
def GobIds.reversed : GobIds := { getRequest := 2, getResponse := 1, purgeRequest := 0 }

/-- A serf handle of the member `name` whose queries get no response. -/
def Serf.alone (name : GoString) : Serf := { LocalMember := name, Query := fun _ _ => .ok [] }

/-- A serf handle of the member `name` whose queries get the given responses. -/
def Serf.answering (name : GoString) (responses : List NodeResponse) : Serf :=
  { LocalMember := name, Query := fun _ _ => .ok responses }

/-- A node with an empty cache that has sent nothing. -/
def Node.fresh : Node := { cache := fun _ => none, sent := [] }

/-- A node after `POST /k` with the given body. -/
def Node.afterPost (name : GoString) (body : List Nat) : Node :=
  main.postHandler (gob GobIds.inOrder) (Serf.alone name) (ascii "k") body Node.fresh

/-- The payload `get` sends for the key `k`. -/
def requestForK : List Nat :=
  [31, 127, 3, 1, 1, 10, 103, 101, 116, 82, 101, 113, 117, 101, 115, 116, 1, 255, 128, 0, 1, 1, 1,
   3, 75, 101, 121, 1, 10, 0, 0, 0, 6, 255, 128, 1, 1, 107, 0]

/-- The encoded `getResponse` for a one-byte value, as sent by a process with the ids in order. -/
def responseOf (v : Nat) : List Nat :=
  [35, 255, 129, 3, 1, 1, 11, 103, 101, 116, 82, 101, 115, 112, 111, 110, 115, 101, 1, 255, 130,
   0, 1, 1, 1, 5, 86, 97, 108, 117, 101, 1, 10, 0, 0, 0, 6, 255, 130, 1, 1, v, 0]

/-- The encoded `getResponse` for the empty value: the field is not sent. -/
def responseOfEmpty : List Nat :=
  [35, 255, 129, 3, 1, 1, 11, 103, 101, 116, 82, 101, 115, 112, 111, 110, 115, 101, 1, 255, 130,
   0, 1, 1, 1, 5, 86, 97, 108, 117, 101, 1, 10, 0, 0, 0, 3, 255, 130, 0]

/-- A discovered service at 10.0.0.1, port 7946. -/
def ServiceEntry.sample : ServiceEntry := { AddrV4 := [10, 0, 0, 1], Port := 7946 }

/-! ## encoding/gob: decoding what was encoded -/

theorem foldl_drop_leadingZeroBytes (bs : List Nat) :
    (bs.drop (leadingZeroBytes bs)).foldl (fun (x : Nat) (c : Nat) => x * 256 + c) 0
      = bs.foldl (fun (x : Nat) (c : Nat) => x * 256 + c) 0 := by
  induction bs with
  | nil => simp [leadingZeroBytes]
  | cons b bs ih =>
    cases b with
    | zero => simpa [leadingZeroBytes] using ih
    | succ n => simp [leadingZeroBytes]

theorem foldl_putUint64 (x : Nat) (h : x < 2 ^ 64) :
    (putUint64 x).foldl (fun (x : Nat) (c : Nat) => x * 256 + c) 0 = x := by
  simp only [putUint64, List.foldl]
  omega

theorem leadingZeroBytes_le (bs : List Nat) : leadingZeroBytes bs ≤ bs.length := by
  induction bs with
  | nil => simp [leadingZeroBytes]
  | cons b bs ih =>
    cases b with
    | zero => simpa [leadingZeroBytes] using ih
    | succ n => simp [leadingZeroBytes]

theorem foldl_eq_zero_of_leadingZeroBytes (bs : List Nat) (h : leadingZeroBytes bs = bs.length) :
    bs.foldl (fun (x : Nat) (c : Nat) => x * 256 + c) 0 = 0 := by
  induction bs with
  | nil => rfl
  | cons b bs ih =>
    cases b with
    | zero =>
      simp only [leadingZeroBytes, List.length_cons, Nat.add_right_cancel_iff] at h
      simpa using ih h
    | succ n => simp [leadingZeroBytes] at h

theorem leadingZeroBytes_putUint64_le (x : Nat) (h : x < 2 ^ 64) (h0 : 0x7F < x) :
    leadingZeroBytes (putUint64 x) ≤ 7 := by
  have h1 := leadingZeroBytes_le (putUint64 x)
  have h2 : (putUint64 x).length = 8 := rfl
  by_contra hc
  have h3 : leadingZeroBytes (putUint64 x) = (putUint64 x).length := by omega
  have h4 := foldl_eq_zero_of_leadingZeroBytes _ h3
  rw [foldl_putUint64 x h] at h4
  omega

theorem decodeUint_encodeUint (x : Nat) (h : x < 2 ^ 64) (rest : List Nat) :
    decodeUint (encodeUint x ++ rest) = .ok (x, rest) := by
  unfold encodeUint
  by_cases hx : x ≤ 0x7F
  · simp [hx, decodeUint]
  · have hbc := leadingZeroBytes_putUint64_le x h (by omega)
    have hlen : ((putUint64 x).drop (leadingZeroBytes (putUint64 x))).length
        = 8 - leadingZeroBytes (putUint64 x) := by
      simp [putUint64]
    have hfold := foldl_drop_leadingZeroBytes (putUint64 x)
    rw [foldl_putUint64 x h] at hfold
    simp only [hx, if_false, List.cons_append, decodeUint]
    have e1 : ¬ (leadingZeroBytes (putUint64 x) + 256 - 8 ≤ 0x7F) := by omega
    have e2 : 256 - (leadingZeroBytes (putUint64 x) + 256 - 8)
        = ((putUint64 x).drop (leadingZeroBytes (putUint64 x))).length := by omega
    rw [if_neg e1]
    simp only [e2]
    rw [if_neg (by omega), if_neg (by simp)]
    simp [hfold]

theorem length_encodeUint_pos (x : Nat) : 0 < (encodeUint x).length := by
  unfold encodeUint
  split <;> simp

theorem length_encodeUint_small (x : Nat) (h : x < 2 ^ 40) : (encodeUint x).length ≤ 6 := by
  unfold encodeUint
  split
  · simp
  · have a1 : x / 2 ^ 56 % 256 = 0 := by omega
    have a2 : x / 2 ^ 48 % 256 = 0 := by omega
    have a3 : x / 2 ^ 40 % 256 = 0 := by omega
    have h3 : 3 ≤ leadingZeroBytes (putUint64 x) := by
      simp only [putUint64, a1, a2, a3, leadingZeroBytes]
      omega
    have h8 : (putUint64 x).length = 8 := rfl
    simp only [List.length_cons, List.length_drop, h8]
    omega

theorem decodeInt_encodeInt (i : Int) (h1 : -(2 ^ 63) ≤ i) (h2 : i < 2 ^ 63) (rest : List Nat) :
    decodeInt (encodeInt i ++ rest) = .ok (i, rest) := by
  unfold encodeInt decodeInt
  rw [decodeUint_encodeUint _ (Nat.mod_lt _ (by norm_num))]
  simp only [Except.ok.injEq, Prod.mk.injEq, and_true]
  split <;> split <;> omega

theorem recvMessage_writeMessage (m w rest : List Nat) (h : writeMessage m = .ok w) :
    recvMessage (w ++ rest) = .ok (m, rest) := by
  unfold writeMessage at h
  split at h
  · cases h
  · rename_i hlen
    have hw : w = encodeUint m.length ++ m := by
      injection h with h
      exact h.symm
    have hlt : m.length < 8589934592 := by
      simp only [tooBig] at hlen
      omega
    subst hw
    unfold recvMessage
    rw [List.append_assoc, decodeUint_encodeUint _ (by omega)]
    simp [tooBig, hlt]

theorem decodeBytes_encodeBytes (s rest : List Nat) (h : s.length < tooBig) :
    decodeBytes (encodeBytes s ++ rest) = .ok (s, rest) := by
  have hlt : s.length < 8589934592 := h
  unfold decodeBytes encodeBytes
  rw [List.append_assoc, decodeUint_encodeUint _ (by omega)]
  simp [tooBig, hlt]

theorem decodeStruct_terminator {α : Type} (numInstr : Nat)
    (op : Nat → α → List Nat → Except String (α × List Nat)) (fuel : Nat) (fieldnum : Int)
    (a : α) (rest : List Nat) :
    decodeStruct numInstr op (fuel + 1) fieldnum a (0 :: rest) = .ok (a, rest) := by
  simp [decodeStruct, decodeUint]

theorem decodeStruct_first {α : Type} (numInstr : Nat)
    (op : Nat → α → List Nat → Except String (α × List Nat)) (fuel : Nat)
    (a a1 : α) (rest rest1 : List Nat) (hn : 0 < numInstr) (hop : op 0 a rest = .ok (a1, rest1)) :
    decodeStruct numInstr op (fuel + 1) (-1) a (1 :: rest)
      = decodeStruct numInstr op fuel 0 a1 rest1 := by
  have hn0 : numInstr ≠ 0 := by omega
  simp [decodeStruct, decodeUint, hop, hn0]

theorem compileFields_single (fieldName : GoString) (h : fieldName ≠ []) :
    compileFields fieldName [{ Name := fieldName, Id := tBytes }] = .ok [decInstr.store] := by
  simp [compileFields, h]

theorem decodeValue_encodeOneField (fieldName : GoString) (hf : fieldName ≠ [])
    (typeName : GoString) (id : Int) (field : GoBytes) (hlen : (bytesOf field).length < tooBig) :
    decodeValue fieldName
        [(id, some { Name := typeName, Id := id, Field := [{ Name := fieldName, Id := tBytes }] })]
        id (encodeOneField field)
      = .ok (if bytesOf field = [] then none else some (bytesOf field)) := by
  unfold decodeValue
  simp only [List.lookup, beq_self_eq_true, compileFields_single fieldName hf]
  by_cases hb : bytesOf field = []
  · simp [encodeOneField, hb, encodeFields, decodeStruct_terminator]
  · have hpos : (bytesOf field).length > 0 := List.length_pos.mpr hb
    have hop : decUint8Slice none (encodeBytes (bytesOf field) ++ [0])
        = .ok (some (bytesOf field), [0]) := by
      unfold decUint8Slice
      rw [decodeBytes_encodeBytes _ _ hlen]
      simp [hb]
    have e1 : encodeUint 1 = [1] := by decide
    simp only [encodeOneField, hpos, if_true, encodeFields, e1, List.cons_append, List.nil_append,
      List.length_cons]
    rw [decodeStruct_first _ _ _ none (some (bytesOf field)) _ [0] (by simp) (by simpa using hop)]
    simp [hb, List.length_append, decodeStruct_terminator]

theorem toTypeId_of_small (i : Int) (h1 : -(2 ^ 31) ≤ i) (h2 : i < 2 ^ 31) : toTypeId i = i := by
  unfold toTypeId
  split <;> omega

/-- Decoding what `gobEncode` wrote gives the field back, an empty slice as nil; the hypothesis
`hwire` is the round trip of the type descriptor alone. -/
theorem gobDecode_gobEncode (typeName fieldName : GoString) (id : Int) (field : GoBytes)
    (payload : List Nat) (hf : fieldName ≠ []) (hid1 : 64 ≤ id) (hid2 : id < 2 ^ 31)
    (hwire : decodeWireType (encodeWireType
        { Name := typeName, Id := id, Field := [{ Name := fieldName, Id := tBytes }] })
      = .ok (some { Name := typeName, Id := id, Field := [{ Name := fieldName, Id := tBytes }] }, []))
    (h : gobEncode typeName fieldName id field = .ok payload) :
    gobDecode fieldName payload
      = .ok (if bytesOf field = [] then none else some (bytesOf field)) := by
  unfold gobEncode at h
  split at h
  · cases h
  · rename_i descriptor hd
    split at h
    · cases h
    · rename_i value hv
      injection h with h
      subst h
      have hvlen : (encodeInt id ++ encodeOneField field).length < tooBig := by
        unfold writeMessage at hv
        split at hv
        · cases hv
        · omega
      have hflen : (bytesOf field).length < tooBig := by
        have : (bytesOf field).length ≤ (encodeOneField field).length := by
          unfold encodeOneField
          split
          · simp [encodeFields, encodeBytes]
            omega
          · rename_i h0
            simp at h0
            simp [h0]
        simp only [List.length_append] at hvlen
        omega
      have hdpos : 0 < descriptor.length := by
        unfold writeMessage at hd
        split at hd
        · cases hd
        · injection hd with hd
          subst hd
          have := length_encodeUint_pos (encodeInt (-id) ++ encodeWireType
            { Name := typeName, Id := id, Field := [{ Name := fieldName, Id := tBytes }] }).length
          simp only [List.length_append] at this ⊢
          omega
      have hvpos : 0 < value.length := by
        unfold writeMessage at hv
        split at hv
        · cases hv
        · injection hv with hv
          subst hv
          have := length_encodeUint_pos (encodeInt id ++ encodeOneField field).length
          simp only [List.length_append] at this ⊢
          omega
      obtain ⟨k, hk⟩ : ∃ k, (descriptor ++ value).length + 1 = (k + 1) + 1 := by
        refine ⟨descriptor.length + value.length - 1, ?_⟩
        simp only [List.length_append]
        omega
      unfold gobDecode
      rw [hk]
      have hneg : ¬ (0 ≤ toTypeId (-id)) := by
        rw [toTypeId_of_small _ (by omega) (by omega)]
        omega
      have hpos : 0 ≤ toTypeId id := by
        rw [toTypeId_of_small _ (by omega) (by omega)]
        omega
      have hback : toTypeId (-toTypeId (-id)) = id := by
        rw [toTypeId_of_small (-id) (by omega) (by omega), neg_neg,
          toTypeId_of_small id (by omega) (by omega)]
      have hfirst : ¬ (toTypeId (-toTypeId (-id)) < firstUserId ∨
          (List.lookup (toTypeId (-toTypeId (-id)))
            ([] : List (Int × Option structType))).isSome) := by
        rw [hback]
        simp [firstUserId]
        omega
      have hv2 := recvMessage_writeMessage _ _ [] hv
      rw [List.append_nil] at hv2
      simp only [decodeMessages, recvMessage_writeMessage _ _ value hd,
        decodeInt_encodeInt (-id) (by omega) (by omega), hneg, if_false, hfirst, hwire,
        ne_eq, not_true_eq_false, hv2, decodeInt_encodeInt id (by omega) (by omega), hpos, if_true]
      rw [hback, toTypeId_of_small id (by omega) (by omega)]
      exact decodeValue_encodeOneField fieldName hf typeName id field hflen

theorem length_encodeInt_typeId (n : Fin 3) :
    (encodeInt (typeId n)).length = 2 ∧ 64 ≤ typeId n ∧ typeId n < 2 ^ 31 := by
  revert n
  decide

theorem length_encodeOneField_le (field : GoBytes) (h : (bytesOf field).length + 10 < 2 ^ 33) :
    (encodeOneField field).length ≤ (bytesOf field).length + 8 := by
  unfold encodeOneField
  split
  · have h6 := length_encodeUint_small (bytesOf field).length (by omega)
    have e1 : encodeUint 1 = [1] := by decide
    simp only [encodeFields, encodeBytes, e1, List.length_append, List.length_cons,
      List.length_nil]
    omega
  · simp [encodeFields]

/-- The encoder accepts every field shorter than `2 ^ 33 - 10` bytes; `hdesc` says that the type
descriptor is a message of admissible size. -/
theorem gobEncode_ok (typeName fieldName : GoString) (n : Fin 3) (field : GoBytes)
    (hdesc : (encodeInt (-(typeId n)) ++ encodeWireType
      { Name := typeName, Id := typeId n, Field := [{ Name := fieldName, Id := tBytes }] }).length
        < tooBig)
    (h : (bytesOf field).length + 10 < 2 ^ 33) :
    ∃ payload, gobEncode typeName fieldName (typeId n) field = .ok payload := by
  have h2 := (length_encodeInt_typeId n).1
  have h3 := length_encodeOneField_le field h
  have hv : ¬ ((encodeInt (typeId n) ++ encodeOneField field).length ≥ tooBig) := by
    simp only [List.length_append, tooBig]
    omega
  have hd : ¬ ((encodeInt (-(typeId n)) ++ encodeWireType
      { Name := typeName, Id := typeId n, Field := [{ Name := fieldName, Id := tBytes }] }).length
        ≥ tooBig) := by omega
  unfold gobEncode writeMessage
  rw [if_neg hd, if_neg hv]
  exact ⟨_, rfl⟩

/-- The round trip of one struct, given the facts about its descriptor. -/
theorem gobDecode_gobEncode_field (typeName fieldName : GoString) (n : Fin 3) (field : GoBytes)
    (hf : fieldName ≠ [])
    (hdesc : (encodeInt (-(typeId n)) ++ encodeWireType
      { Name := typeName, Id := typeId n, Field := [{ Name := fieldName, Id := tBytes }] }).length
        < tooBig)
    (hwire : decodeWireType (encodeWireType
        { Name := typeName, Id := typeId n, Field := [{ Name := fieldName, Id := tBytes }] })
      = .ok (some { Name := typeName, Id := typeId n,
                    Field := [{ Name := fieldName, Id := tBytes }] }, []))
    (h : (bytesOf field).length + 10 < 2 ^ 33) :
    ∃ payload decoded, gobEncode typeName fieldName (typeId n) field = .ok payload ∧
      gobDecode fieldName payload = .ok decoded ∧ bytesOf decoded = bytesOf field := by
  obtain ⟨payload, hp⟩ := gobEncode_ok typeName fieldName n field hdesc h
  have hid := length_encodeInt_typeId n
  refine ⟨payload, _, hp,
    gobDecode_gobEncode typeName fieldName (typeId n) field payload hf hid.2.1 hid.2.2 hwire hp, ?_⟩
  split
  · rename_i h0
    rw [h0]
    rfl
  · rfl

theorem descriptor_getRequest (n : Fin 3) :
    (encodeInt (-(typeId n)) ++ encodeWireType
      { Name := ascii "getRequest", Id := typeId n,
        Field := [{ Name := ascii "Key", Id := tBytes }] }).length < tooBig ∧
    decodeWireType (encodeWireType
        { Name := ascii "getRequest", Id := typeId n,
          Field := [{ Name := ascii "Key", Id := tBytes }] })
      = .ok (some { Name := ascii "getRequest", Id := typeId n,
                    Field := [{ Name := ascii "Key", Id := tBytes }] }, []) := by
  revert n
  decide

theorem descriptor_getResponse (n : Fin 3) :
    (encodeInt (-(typeId n)) ++ encodeWireType
      { Name := ascii "getResponse", Id := typeId n,
        Field := [{ Name := ascii "Value", Id := tBytes }] }).length < tooBig ∧
    decodeWireType (encodeWireType
        { Name := ascii "getResponse", Id := typeId n,
          Field := [{ Name := ascii "Value", Id := tBytes }] })
      = .ok (some { Name := ascii "getResponse", Id := typeId n,
                    Field := [{ Name := ascii "Value", Id := tBytes }] }, []) := by
  revert n
  decide

theorem descriptor_purgeRequest (n : Fin 3) :
    (encodeInt (-(typeId n)) ++ encodeWireType
      { Name := ascii "purgeRequest", Id := typeId n,
        Field := [{ Name := ascii "Key", Id := tBytes }] }).length < tooBig ∧
    decodeWireType (encodeWireType
        { Name := ascii "purgeRequest", Id := typeId n,
          Field := [{ Name := ascii "Key", Id := tBytes }] })
      = .ok (some { Name := ascii "purgeRequest", Id := typeId n,
                    Field := [{ Name := ascii "Key", Id := tBytes }] }, []) := by
  revert n
  decide

/-- Purge requests survive the trip between two processes, whatever their type ids. -/
theorem decodePurgeRequest_encodePurgeRequest (ids ids2 : GobIds) (key : GoBytes)
    (h : (bytesOf key).length + 10 < 2 ^ 33) :
    ∃ payload req, (gob ids).encodePurgeRequest { Key := key } = .ok payload ∧
      (gob ids2).decodePurgeRequest payload = .ok req ∧ bytesOf req.Key = bytesOf key := by
  obtain ⟨payload, decoded, h1, h2, h3⟩ :=
    gobDecode_gobEncode_field (ascii "purgeRequest") (ascii "Key") ids.purgeRequest key
      (by decide) (descriptor_purgeRequest _).1 (descriptor_purgeRequest _).2 h
  exact ⟨payload, { Key := decoded }, h1, by simp [gob, h2], h3⟩

theorem decodeGetRequest_encodeGetRequest (ids ids2 : GobIds) (key : GoBytes)
    (h : (bytesOf key).length + 10 < 2 ^ 33) :
    ∃ payload req, (gob ids).encodeGetRequest { Key := key } = .ok payload ∧
      (gob ids2).decodeGetRequest payload = .ok req ∧ bytesOf req.Key = bytesOf key := by
  obtain ⟨payload, decoded, h1, h2, h3⟩ :=
    gobDecode_gobEncode_field (ascii "getRequest") (ascii "Key") ids.getRequest key
      (by decide) (descriptor_getRequest _).1 (descriptor_getRequest _).2 h
  exact ⟨payload, { Key := decoded }, h1, by simp [gob, h2], h3⟩

theorem decodeGetResponse_encodeGetResponse (ids ids2 : GobIds) (value : GoBytes)
    (h : (bytesOf value).length + 10 < 2 ^ 33) :
    ∃ payload res, (gob ids).encodeGetResponse { Value := value } = .ok payload ∧
      (gob ids2).decodeGetResponse payload = .ok res ∧ bytesOf res.Value = bytesOf value := by
  obtain ⟨payload, decoded, h1, h2, h3⟩ :=
    gobDecode_gobEncode_field (ascii "getResponse") (ascii "Value") ids.getResponse value
      (by decide) (descriptor_getResponse _).1 (descriptor_getResponse _).2 h
  exact ⟨payload, { Value := decoded }, h1, by simp [gob, h2], h3⟩

theorem foldl_append_singleton {α β : Type} (f : α → β) (l : List α) (acc : List β) :
    l.foldl (fun peers entry => peers ++ [f entry]) acc = acc ++ l.map f := by
  induction l generalizing acc with
  | nil => simp
  | cons a l ih => simp [ih]

/-- A key of `2 ^ 33 - 10` bytes makes a value message of `2 ^ 33` bytes. -/
theorem encodeGetRequest_too_big (big : List Nat) (hlen : big.length = 2 ^ 33 - 10) :
    (gob GobIds.inOrder).encodeGetRequest { Key := some big }
      = .error "gob: encoder: message too big" := by
  have hlen1 : big.length = 8589934582 := by
    rw [hlen]
    norm_num
  have hu : encodeUint 8589934582 = [251, 1, 255, 255, 255, 246] := by decide
  have hd : ∃ d, writeMessage (encodeInt (-(typeId GobIds.inOrder.getRequest)) ++ encodeWireType
      { Name := ascii "getRequest", Id := typeId GobIds.inOrder.getRequest,
        Field := [{ Name := ascii "Key", Id := tBytes }] }) = .ok d := ⟨_, rfl⟩
  obtain ⟨d, hd⟩ := hd
  have hi : encodeInt (typeId GobIds.inOrder.getRequest) = [255, 128] := by decide
  have e1 : encodeUint 1 = [1] := by decide
  have hv : writeMessage (encodeInt (typeId GobIds.inOrder.getRequest) ++
      encodeOneField (some big)) = .error "gob: encoder: message too big" := by
    unfold writeMessage
    rw [if_pos]
    simp only [hi, encodeOneField, bytesOf, Option.getD_some, hlen1, encodeFields, encodeBytes, hu,
      e1, List.length_append, List.length_cons, List.length_nil, tooBig]
    norm_num
  show gobEncode (ascii "getRequest") (ascii "Key") (typeId GobIds.inOrder.getRequest) (some big)
    = _
  unfold gobEncode
  rw [hd]
  simp only [hv]

theorem bytesOf_bufferBytes (written : List Nat) : bytesOf (bufferBytes written) = written := by
  unfold bufferBytes bytesOf
  split
  · rename_i h
    simp [h]
  · rfl

theorem Index_append_sep (n c : GoString) (sep : Nat) (h : sep ∉ n) :
    Index (n ++ sep :: c) sep = some n.length := by
  induction n with
  | nil => simp [Index]
  | cons x n ih =>
    have hx : x ≠ sep := fun hx => h (by simp [hx])
    have hn : sep ∉ n := fun hn => h (by simp [hn])
    simp [Index, hx, ih hn]

/-- A composite name whose first component has no separator splits into its two components. -/
theorem SplitN_composite (n c : GoString) (h : colon ∉ n) :
    SplitN (n ++ colon :: c) colon 2 = [n, c] := by
  have hmin : min 2 ((n ++ colon :: c).length + 1) - 1 = 1 := by
    simp only [List.length_append, List.length_cons]
    omega
  unfold SplitN
  rw [if_neg (by decide), hmin]
  simp only [splitLoop, Index_append_sep n c colon h]
  simp

/-- Self-filtering for names without a separator: the event a member broadcast is skipped when
it comes back to that member; neither `handleUserEvent` nor `onPurge` runs, the world is as it
was. -/
theorem own_event_skipped_without_separator {σ : Type} (g : Codec) (ctrl : controller σ)
    (n command : GoString) (payload : GoBytes) (l : Loop σ) (h : colon ∉ n) :
    connect.dispatch g n ctrl (.user (connect.sendUserEvent n command payload)) l = .ok l := by
  simp [connect.dispatch, connect.sendUserEvent, SplitN_composite n command h]

/-- Purge propagation for a sender whose name has no separator: the purge of a key shorter than
`2 ^ 33 - 10` bytes by the member `cluster.LocalMember` hands one event to `cluster.UserEvent`,
and a member of another name that receives it calls `onPurge` once, with a key of the same
bytes. -/
theorem purge_reaches_other_member (ids ids2 : GobIds) (cluster : Serf) (a : GoString)
    (key : GoBytes) (sender : Node) (hsep : colon ∉ cluster.LocalMember)
    (hab : cluster.LocalMember ≠ a) (hkey : (bytesOf key).length + 10 < 2 ^ 33) :
    ∃ event key1,
      (purge (gob ids) (main.ctrl cluster) key sender).sent = sender.sent ++ [event] ∧
      event.Name = cluster.LocalMember ++ [colon] ++ purgeCommand ∧
      (gob ids2).decodePurgeRequest (bytesOf event.Payload) = .ok { Key := key1 } ∧
      bytesOf key1 = bytesOf key ∧
      ∀ (σ : Type) (ctrl : controller σ) (l : Loop σ),
        connect.dispatch (gob ids2) a ctrl (.user event) l
          = .ok { world := ctrl.onPurge key1 l.world, responded := l.responded } := by
  obtain ⟨payload, req, henc, hdec, hbytes⟩ :=
    decodePurgeRequest_encodePurgeRequest ids ids2 key hkey
  refine ⟨connect.sendUserEvent cluster.LocalMember purgeCommand (bufferBytes payload), req.Key,
    ?_, rfl, ?_, hbytes, ?_⟩
  · simp [purge, henc, main.ctrl]
  · simpa [connect.sendUserEvent, bytesOf_bufferBytes] using hdec
  · intro σ ctrl l
    have hdec1 : (gob ids2).decodePurgeRequest (bytesOf (bufferBytes payload)) = .ok req := by
      rw [bytesOf_bufferBytes]
      exact hdec
    simp [connect.dispatch, connect.sendUserEvent, SplitN_composite _ purgeCommand hsep, hab,
      handleUserEvent, hdec1]

/-- With the cache callbacks of `main`, the purge removes the entry of the key and leaves every
other entry as it was. -/
theorem onPurge_deletes (cluster : Serf) (key : GoBytes) (n : Node) (k : GoString) :
    ((main.ctrl cluster).onPurge key n).cache k
      = if k = bytesOf key then none else n.cache k := rfl

/-- Whatever the encoder accepted as a `getRequest` decodes, in any process, to the key with the
same bytes; an empty key comes back nil. -/
theorem decodeGetRequest_of_encode (ids ids2 : GobIds) (key : GoBytes) (payload : List Nat)
    (h : (gob ids).encodeGetRequest { Key := key } = .ok payload) :
    (gob ids2).decodeGetRequest payload
      = .ok { Key := if bytesOf key = [] then none else some (bytesOf key) } := by
  have hid := length_encodeInt_typeId ids.getRequest
  have hd := gobDecode_gobEncode (ascii "getRequest") (ascii "Key") (typeId ids.getRequest) key
    payload (by decide) hid.2.1 hid.2.2 (descriptor_getRequest _).2 h
  simp [gob, hd]

/-- Whatever the encoder accepted as a `getResponse` decodes, in any process, to the value with
the same bytes; an empty value comes back nil. -/
theorem decodeGetResponse_of_encode (ids ids2 : GobIds) (value : GoBytes) (payload : List Nat)
    (h : (gob ids).encodeGetResponse { Value := value } = .ok payload) :
    (gob ids2).decodeGetResponse payload
      = .ok { Value := if bytesOf value = [] then none else some (bytesOf value) } := by
  have hid := length_encodeInt_typeId ids.getResponse
  have hd := gobDecode_gobEncode (ascii "getResponse") (ascii "Value") (typeId ids.getResponse)
    value payload (by decide) hid.2.1 hid.2.2 (descriptor_getResponse _).2 h
  simp [gob, hd]

theorem bufferBytes_eq_some (written r : List Nat) (h : bufferBytes written = some r) :
    written = r := by
  unfold bufferBytes at h
  split at h
  · cases h
  · injection h

/-- End-to-end get: when the responder answers the request of `get` and the answer is what
`sendQuery` returns, `get` returns the value the responder's `onGet` returned for a key of the
same bytes, except that an empty value arrives as nil. -/
theorem get_returns_value_of_responder {σ τ : Type} (ids idsR : GobIds) (cQ : controller σ)
    (cR : controller τ) (name : GoString) (key : GoBytes) (sQ sQ1 : σ) (sR : τ)
    (request response : List Nat)
    (henc : (gob ids).encodeGetRequest { Key := key } = .ok request)
    (hresp : (handleQuery (gob idsR) cR name (bufferBytes request) sR).1 = some response)
    (hsend : cQ.sendQuery getCommand (bufferBytes request) sQ = (some response, sQ1)) :
    ∃ key1 value, bytesOf key1 = bytesOf key ∧ (cR.onGet key1 sR).1 = some value ∧
      (get (gob ids) cQ key sQ).1 = if value = [] then none else some value := by
  have hreq := decodeGetRequest_of_encode ids idsR key request henc
  unfold handleQuery at hresp
  rw [bytesOf_bufferBytes, hreq] at hresp
  simp only at hresp
  refine ⟨if bytesOf key = [] then none else some (bytesOf key), ?_⟩
  cases hget : cR.onGet (if bytesOf key = [] then none else some (bytesOf key)) sR with
  | mk v s1 =>
    rw [hget] at hresp
    cases v with
    | none => cases hresp
    | some value =>
      simp only at hresp
      cases hencR : (gob idsR).encodeGetResponse { Value := some value } with
      | error e =>
        rw [hencR] at hresp
        cases hresp
      | ok buf =>
        rw [hencR] at hresp
        have hbuf := bufferBytes_eq_some buf response hresp
        subst hbuf
        have hdec := decodeGetResponse_of_encode idsR ids (some value) buf hencR
        refine ⟨value, ?_, rfl, ?_⟩
        · split
          · rename_i h0
            rw [h0]
            rfl
          · rfl
        · simp only [get, henc, hsend, hdec]
          rfl


/-! ## The claims -/

/-- C10 (code defect). A user event whose name has no separator, received by a member of another
name, makes the event loop read `parts[1]` of a one-element slice: the round ends in a panic
whatever the payload, and so does the loop. -/
theorem dispatch_panics_on_name_without_separator :
    ∀ (σ : Type) (g : Codec) (ctrl : controller σ) (payload : GoBytes) (l : Loop σ)
      (events : List Event),
      SplitN (ascii "purge") colon 2 = [ascii "purge"] ∧
      connect.dispatch g (ascii "node1") ctrl (.user ⟨ascii "purge", payload⟩) l
        = .error "index out of range [1] with length 1" ∧
      connect.eventLoop g (ascii "node1") ctrl (.user ⟨ascii "purge", payload⟩ :: events) l
        = .error "index out of range [1] with length 1" := by
  intro σ g ctrl payload l events
  exact ⟨by decide, rfl, rfl⟩

/-- C1 (code defect). On the member named `a:b` the event that node itself broadcast is not
skipped: the name `a:b:purge` splits at the first separator into `a` and `b:purge`, `a` is not the
local name, so `handleUserEvent` runs; with the cache callbacks of `main`, the entry the node
stored by `POST /k` is deleted by its own broadcast. -/
theorem own_event_handled_when_name_has_separator :
    (∀ (σ : Type) (g : Codec) (ctrl : controller σ) (payload : GoBytes) (l : Loop σ),
      connect.dispatch g (ascii "a:b") ctrl
          (.user (connect.sendUserEvent (ascii "a:b") purgeCommand payload)) l
        = .ok { world := handleUserEvent g ctrl (ascii "b:purge") payload l.world,
                responded := l.responded }) ∧
    (Node.afterPost (ascii "a:b") (ascii "v")).cache (ascii "k") = some (some (ascii "v")) ∧
    (Node.afterPost (ascii "a:b") (ascii "v")).sent.map (fun e => e.Name) = [ascii "a:b:purge"] ∧
    (connect.eventLoop (gob GobIds.inOrder) (ascii "a:b") (main.ctrl (Serf.alone (ascii "a:b")))
        ((Node.afterPost (ascii "a:b") (ascii "v")).sent.map Event.user)
        { world := Node.afterPost (ascii "a:b") (ascii "v"), responded := [] }).map
      (fun l => l.world.cache (ascii "k")) = .ok none := by
  refine ⟨fun σ g ctrl payload l => rfl, ?_, ?_, ?_⟩ <;> decide

/-- C4 (code defect). The member `a` holds `k`; the member `a:x`, a different identity, purges
`k`. Its event `a:x:purge` splits into `a` and `x:purge`, the first part is the name of the
receiver, and the receiver skips the event as its own: `a` still holds `k`. -/
theorem purge_from_other_member_skipped :
    ascii "a" ≠ ascii "a:x" ∧
    (Node.afterPost (ascii "a:x") (ascii "w")).sent.map (fun e => e.Name) = [ascii "a:x:purge"] ∧
    (Node.afterPost (ascii "a:x") (ascii "w")).sent.map
        (fun e => (gob GobIds.inOrder).decodePurgeRequest (bytesOf e.Payload))
      = [.ok { Key := some (ascii "k") }] ∧
    (connect.eventLoop (gob GobIds.inOrder) (ascii "a") (main.ctrl (Serf.alone (ascii "a")))
        ((Node.afterPost (ascii "a:x") (ascii "w")).sent.map Event.user)
        { world := Node.afterPost (ascii "a") (ascii "v"), responded := [] }).map
      (fun l => l.world.cache (ascii "k")) = .ok (some (some (ascii "v"))) := by
  refine ⟨?_, ?_, ?_, ?_⟩ <;> decide

/-- C2 (code defect). With two responses in the channel the closure returns the payload of the
second, and `get` returns the value of the second responder (`2`, not `1`): the range loop has
no break, so every response it receives overwrites the one before. -/
theorem sendQuery_returns_last_response :
    (∀ (r1 r2 : NodeResponse), connect.sendQuery (.ok [r1, r2]) = r2.Payload) ∧
    (∀ (rs : List NodeResponse) (r : NodeResponse),
      connect.sendQuery (.ok (rs ++ [r])) = r.Payload) ∧
    (gob GobIds.inOrder).encodeGetResponse { Value := some [49] } = .ok (responseOf 49) ∧
    (gob GobIds.inOrder).encodeGetResponse { Value := some [50] } = .ok (responseOf 50) ∧
    (gob GobIds.inOrder).decodeGetResponse (responseOf 49) = .ok { Value := some [49] } ∧
    (gob GobIds.inOrder).decodeGetResponse (responseOf 50) = .ok { Value := some [50] } ∧
    (get (gob GobIds.inOrder)
        (main.ctrl (Serf.answering (ascii "q")
          [⟨ascii "n1", some (responseOf 49)⟩, ⟨ascii "n2", some (responseOf 50)⟩]))
        (some (ascii "k")) Node.fresh).1 = some [50] := by
  refine ⟨fun r1 r2 => rfl, fun rs r => ?_, ?_, ?_, ?_, ?_, ?_⟩
  · simp [connect.sendQuery]
  · decide
  · decide
  · decide
  · decide
  · decide

/-- C9 (code defect). A responder that stored the empty value for `k` answers the query: its
`onGet` returns a non-nil slice and `handleQuery` returns a response. The response carries no
field, because gob does not send an empty slice, so the requester decodes a nil `Value`, `get`
returns nil and the handler of `GET /k` answers 404. On the responder itself the same key is a
local hit. -/
theorem get_reports_empty_value_absent :
    ((main.ctrl (Serf.alone (ascii "r"))).onGet (some (ascii "k"))
        (Node.afterPost (ascii "r") [])).1 = some [] ∧
    (gob GobIds.inOrder).encodeGetRequest { Key := some (ascii "k") } = .ok requestForK ∧
    (handleQuery (gob GobIds.inOrder) (main.ctrl (Serf.alone (ascii "r"))) getCommand
        (some requestForK) (Node.afterPost (ascii "r") [])).1 = some responseOfEmpty ∧
    (get (gob GobIds.inOrder)
        (main.ctrl (Serf.answering (ascii "q") [⟨ascii "r", some responseOfEmpty⟩]))
        (some (ascii "k")) Node.fresh).1 = none ∧
    (main.getHandler (gob GobIds.inOrder)
        (Serf.answering (ascii "q") [⟨ascii "r", some responseOfEmpty⟩])
        (ascii "k") Node.fresh).1 = Reply.notFound ∧
    (main.getHandler (gob GobIds.inOrder) (Serf.alone (ascii "r")) (ascii "k")
        (Node.afterPost (ascii "r") [])).1 = Reply.fromLocal (some []) := by
  refine ⟨?_, ?_, ?_, ?_, ?_, ?_⟩ <;> decide

/-- C7 (counterexample). Two entries with the same address and port give the same string
twice: the result has a duplicate. -/
theorem discoverOthers_keeps_duplicates :
    discoverOthers [ServiceEntry.sample, ServiceEntry.sample] none
      = some [ascii "10.0.0.1:7946", ascii "10.0.0.1:7946"] ∧
    ¬ [ascii "10.0.0.1:7946", ascii "10.0.0.1:7946"].Nodup := by
  decide

/-- C7 (amended). For every sequence of service entries delivered by one discovery probe,
`discoverOthers` returns one `host:port` string for every entry, in the order of arrival,
duplicates included; and it returns the empty list when no entry arrives. -/
theorem discoverOthers_eq_map (entries : List ServiceEntry) :
    discoverOthers entries none = some (entries.map hostPort) ∧
    discoverOthers [] none = some [] := by
  refine ⟨?_, rfl⟩
  simp [discoverOthers, foldl_append_singleton]

/-- C3 (counterexample). A key of `2 ^ 33 - 10` bytes makes a value message of `2 ^ 33` bytes,
which the encoder of a 64-bit build refuses: nothing is there to decode. -/
theorem gob_refuses_large_key :
    (gob GobIds.inOrder).encodeGetRequest { Key := some (List.replicate (2 ^ 33 - 10) 0) }
      = .error "gob: encoder: message too big" :=
  encodeGetRequest_too_big _ (List.length_replicate _ _)

/-- C3 (amended). On a 64-bit build, for every byte string shorter than `2 ^ 33 - 10` bytes (the
empty one and the nil slice included), each of the three payload types and every numbering of
the types in the encoding and in the decoding process, the encoder accepts the struct holding
it, the decoder accepts the result, and the decoded field has the same bytes. -/
theorem gob_round_trip (ids ids2 : GobIds) (b : GoBytes)
    (h : (bytesOf b).length + 10 < 2 ^ 33) :
    (∃ payload req, (gob ids).encodeGetRequest { Key := b } = .ok payload ∧
      (gob ids2).decodeGetRequest payload = .ok req ∧ bytesOf req.Key = bytesOf b) ∧
    (∃ payload res, (gob ids).encodeGetResponse { Value := b } = .ok payload ∧
      (gob ids2).decodeGetResponse payload = .ok res ∧ bytesOf res.Value = bytesOf b) ∧
    (∃ payload req, (gob ids).encodePurgeRequest { Key := b } = .ok payload ∧
      (gob ids2).decodePurgeRequest payload = .ok req ∧ bytesOf req.Key = bytesOf b) :=
  ⟨decodeGetRequest_encodeGetRequest ids ids2 b h, decodeGetResponse_encodeGetResponse ids ids2 b h,
    decodePurgeRequest_encodePurgeRequest ids ids2 b h⟩

/-- Witness of C3: the round trip of the five bytes `key-1`, for each of the three types, between
a process that used the types in order and one that used them in the opposite order. -/
theorem gob_round_trip_witness :
    (bytesOf (some (ascii "key-1"))).length + 10 < 2 ^ 33 ∧
    ((∃ payload req,
      (gob GobIds.inOrder).encodeGetRequest { Key := some (ascii "key-1") } = .ok payload ∧
      (gob GobIds.reversed).decodeGetRequest payload = .ok req ∧
      bytesOf req.Key = bytesOf (some (ascii "key-1"))) ∧
    (∃ payload res,
      (gob GobIds.inOrder).encodeGetResponse { Value := some (ascii "key-1") } = .ok payload ∧
      (gob GobIds.reversed).decodeGetResponse payload = .ok res ∧
      bytesOf res.Value = bytesOf (some (ascii "key-1"))) ∧
    (∃ payload req,
      (gob GobIds.inOrder).encodePurgeRequest { Key := some (ascii "key-1") } = .ok payload ∧
      (gob GobIds.reversed).decodePurgeRequest payload = .ok req ∧
      bytesOf req.Key = bytesOf (some (ascii "key-1")))) :=
  ⟨by decide, gob_round_trip GobIds.inOrder GobIds.reversed (some (ascii "key-1")) (by decide)⟩

/-- C5. For every codec, controller, query name, payload and world: if `handleQuery` returns a
payload, the payload decoded as a `getRequest` and `onGet` returned a non-nil value for the decoded
key; and whenever `onGet` returns nil for the decoded key, `handleQuery` returns no payload. -/
theorem handleQuery_payload_iff_hit {σ : Type} (g : Codec) (c : controller σ) (name : GoString)
    (payload : GoBytes) (s : σ) :
    (∀ r, (handleQuery g c name payload s).1 = some r →
      ∃ req, g.decodeGetRequest (bytesOf payload) = .ok req ∧
        ∃ value, (c.onGet req.Key s).1 = some value) ∧
    (∀ req, g.decodeGetRequest (bytesOf payload) = .ok req → (c.onGet req.Key s).1 = none →
      (handleQuery g c name payload s).1 = none) := by
  constructor
  · intro r h
    unfold handleQuery at h
    split at h
    · cases h
    · rename_i req hreq
      refine ⟨req, hreq, ?_⟩
      split at h
      · rename_i value s1 hget
        exact ⟨value, by rw [hget]⟩
      · cases h
  · intro req hreq hget
    unfold handleQuery
    cases hres : c.onGet req.Key s with
    | mk v s1 =>
      rw [hres] at hget
      cases hget
      simp only [hreq, hres]

/-- Witness of C5: the responder that holds `k` answers, and the key decoded. -/
theorem handleQuery_payload_iff_hit_witness :
    ∃ req, (gob GobIds.inOrder).decodeGetRequest (bytesOf (some requestForK)) = .ok req ∧
      ∃ value, ((main.ctrl (Serf.alone (ascii "r"))).onGet req.Key
        (Node.afterPost (ascii "r") (ascii "v"))).1 = some value :=
  (handleQuery_payload_iff_hit (gob GobIds.inOrder) (main.ctrl (Serf.alone (ascii "r")))
    getCommand (some requestForK) (Node.afterPost (ascii "r") (ascii "v"))).1
    (responseOf 118) (by decide)

/-- C6. For every codec, controller, query name and payload that fails to decode as a
`getRequest`: `handleQuery` returns nil and leaves the world as it was, whatever the callbacks
are (so `onGet` had no part in it); the round of the event loop on that query ends normally with
no response sent, and the loop goes on with the events that follow. -/
theorem handleQuery_decode_failure {σ : Type} (g : Codec) (c : controller σ)
    (localName sourceNode name : GoString) (payload : GoBytes) (l : Loop σ)
    (events : List Event) (e : String)
    (hdec : g.decodeGetRequest (bytesOf payload) = .error e) :
    handleQuery g c name payload l.world = (none, l.world) ∧
    connect.dispatch g localName c (.query sourceNode name payload) l = .ok l ∧
    connect.eventLoop g localName c (.query sourceNode name payload :: events) l
      = connect.eventLoop g localName c events l := by
  have h1 : handleQuery g c name payload l.world = (none, l.world) := by
    unfold handleQuery
    rw [hdec]
  have h2 : connect.dispatch g localName c (.query sourceNode name payload) l = .ok l := by
    unfold connect.dispatch
    simp only [h1]
    split <;> rfl
  refine ⟨h1, h2, ?_⟩
  simp only [connect.eventLoop, h2]

/-- Witness of C6: a payload cut after its first byte is refused by the decoder. -/
theorem handleQuery_decode_failure_witness :
    handleQuery (gob GobIds.inOrder) (main.ctrl (Serf.alone (ascii "r"))) getCommand (some [32])
        (Node.afterPost (ascii "r") (ascii "v"))
      = (none, Node.afterPost (ascii "r") (ascii "v")) ∧
    connect.dispatch (gob GobIds.inOrder) (ascii "r") (main.ctrl (Serf.alone (ascii "r")))
        (.query (ascii "q") getCommand (some [32]))
        { world := Node.afterPost (ascii "r") (ascii "v"), responded := [] }
      = .ok { world := Node.afterPost (ascii "r") (ascii "v"), responded := [] } ∧
    connect.eventLoop (gob GobIds.inOrder) (ascii "r") (main.ctrl (Serf.alone (ascii "r")))
        [.query (ascii "q") getCommand (some [32])]
        { world := Node.afterPost (ascii "r") (ascii "v"), responded := [] }
      = connect.eventLoop (gob GobIds.inOrder) (ascii "r") (main.ctrl (Serf.alone (ascii "r")))
        [] { world := Node.afterPost (ascii "r") (ascii "v"), responded := [] } :=
  handleQuery_decode_failure (gob GobIds.inOrder) (main.ctrl (Serf.alone (ascii "r")))
    (ascii "r") (ascii "q") getCommand (some [32])
    { world := Node.afterPost (ascii "r") (ascii "v"), responded := [] } [] "unexpected EOF"
    (by decide)

/-- C8. The closure `sendQuery` returns nil when sending the query failed and when the channel
closed with no response. For every codec, controller, key and world: if `sendQuery` returns nil,
`get` returns nil, and if it returns a payload that fails to decode as a `getResponse`, `get`
returns nil as well; `get` is a total function, it raises nothing. -/
theorem get_absent_without_response {σ : Type} (g : Codec) (c : controller σ) (key : GoBytes)
    (s : σ) :
    (∀ e, connect.sendQuery (.error e) = none) ∧
    connect.sendQuery (.ok []) = none ∧
    ((∀ buf, g.encodeGetRequest { Key := key } = .ok buf →
        (c.sendQuery getCommand (bufferBytes buf) s).1 = none) →
      (get g c key s).1 = none) ∧
    (∀ buf nodeRes e, g.encodeGetRequest { Key := key } = .ok buf →
      (c.sendQuery getCommand (bufferBytes buf) s).1 = some nodeRes →
      g.decodeGetResponse nodeRes = .error e → (get g c key s).1 = none) := by
  refine ⟨fun e => rfl, rfl, ?_, ?_⟩
  · intro h
    cases henc : g.encodeGetRequest { Key := key } with
    | error e => simp only [get, henc]
    | ok buf =>
      have hq := h buf henc
      cases hres : c.sendQuery getCommand (bufferBytes buf) s with
      | mk v s1 =>
        rw [hres] at hq
        cases hq
        simp only [get, henc, hres]
  · intro buf nodeRes e henc hq hdec
    cases hres : c.sendQuery getCommand (bufferBytes buf) s with
    | mk v s1 =>
      rw [hres] at hq
      cases hq
      simp only [get, henc, hres, hdec]

/-- Witness of C8: alone in the cluster, `get` for `k` is nil; and a response cut after its
first byte is nil as well. -/
theorem get_absent_without_response_witness :
    (get (gob GobIds.inOrder) (main.ctrl (Serf.alone (ascii "q"))) (some (ascii "k"))
      Node.fresh).1 = none ∧
    (get (gob GobIds.inOrder) (main.ctrl (Serf.answering (ascii "q") [⟨ascii "r", some [35]⟩]))
      (some (ascii "k")) Node.fresh).1 = none :=
  ⟨(get_absent_without_response (gob GobIds.inOrder) (main.ctrl (Serf.alone (ascii "q")))
      (some (ascii "k")) Node.fresh).2.2.1 (fun _ _ => rfl),
   (get_absent_without_response (gob GobIds.inOrder)
      (main.ctrl (Serf.answering (ascii "q") [⟨ascii "r", some [35]⟩]))
      (some (ascii "k")) Node.fresh).2.2.2 requestForK [35] "unexpected EOF" (by decide) rfl
      (by decide)⟩

end GossipCache
